import Mathlib

/-!
Verification of the process abstraction of the Citra emulated kernel
(`src/core/hle/kernel/process.h`): process identity, kernel capability
parsing, heap allocation, and the TLS slot bitmap.

The repository provides the interface header; operation bodies that are
declared there but not present in the sources are modelled from the
specification (spec §4.2–§4.5), as noted on each definition.
-/

namespace Citra

/-- Error kinds of the discriminated results (spec §7). -/
inductive KError
  | InvalidAddress
  | InvalidSize
  | OutOfMemory
  | ResourceExhausted
  | PermissionDenied
  | CapabilityError
  | InvalidArgument
  deriving DecidableEq, Repr

deriving instance DecidableEq for Except

/-- Modelled from the spec: kernel object type tags (`HandleType::Process`,
`HandleType::CodeSet`, spec §6); the full enum lives in `kernel.h`, outside
the provided sources. -/
inductive HandleType
  | Process
  | CodeSet
  deriving DecidableEq, Repr

/-- `enum class MemoryRegion : u16` (process.h lines 30-34). -/
inductive MemoryRegion
  | APPLICATION
  | SYSTEM
  | BASE
  deriving DecidableEq, Repr

/-- Modelled from the spec: virtual-memory permissions passed to the
address-space driver (`vm_manager.h`, outside the provided sources). -/
inductive VMAPermission
  | NoAccess
  | Read
  | Write
  | ReadWrite
  | Execute
  | ReadExecute
  | ReadWriteExecute
  deriving DecidableEq, Repr

/-- `struct AddressMapping` (process.h lines 22-28); address and size must
be page-aligned. -/
structure AddressMapping where
  address : Nat
  size : Nat
  writable : Bool
  unk_flag : Bool
  deriving DecidableEq, Repr

/-- `union ProcessFlags` (process.h lines 36-49): the named bit fields of
the packed `u16`.  `memory_region` is the raw value of the 4-bit field. -/
structure ProcessFlags where
  allow_debug : Bool
  force_debug : Bool
  allow_nonalphanum : Bool
  shared_page_writable : Bool
  privileged_priority : Bool
  allow_main_args : Bool
  shared_device_mem : Bool
  runnable_on_sleep : Bool
  memory_region : Nat
  loaded_high : Bool
  deriving DecidableEq, Repr

/-- Decode a raw `u16` into `ProcessFlags` following the `BitField` layout
of process.h lines 39-48 (bit 0 `allow_debug`, …, bits 8-11
`memory_region`, bit 12 `loaded_high`). -/
def decodeProcessFlags (raw : Nat) : ProcessFlags :=
  { allow_debug := raw.testBit 0
    force_debug := raw.testBit 1
    allow_nonalphanum := raw.testBit 2
    shared_page_writable := raw.testBit 3
    privileged_priority := raw.testBit 4
    allow_main_args := raw.testBit 5
    shared_device_mem := raw.testBit 6
    runnable_on_sleep := raw.testBit 7
    memory_region := (raw >>> 8) % 16
    loaded_high := raw.testBit 12 }

/-- `struct CodeSet::Segment` (process.h lines 70-74). -/
structure Segment where
  offset : Nat
  addr : Nat
  size : Nat
  deriving DecidableEq, Repr

/-- `struct CodeSet` (process.h lines 54-82): name, title id, the three
segments and the entrypoint.  The backing byte buffer is not needed by any
claim and is omitted. -/
structure CodeSet where
  name : String
  program_id : Nat
  code : Segment
  rodata : Segment
  data : Segment
  entrypoint : Nat
  deriving DecidableEq, Repr

/-- `CodeSet::GetTypeName` (process.h line 57). -/
def CodeSet.GetTypeName (_ : CodeSet) : String := "CodeSet"

/-- `CodeSet::GetName` (process.h line 58). -/
def CodeSet.GetName (cs : CodeSet) : String := cs.name

/-- `CodeSet::GetHandleType` (process.h lines 60-61). -/
def CodeSet.GetHandleType (_ : CodeSet) : HandleType := HandleType.CodeSet

/-- The 3DS page size (0x1000 bytes); process.h line 23 requires addresses
and sizes to be page-aligned to this granularity. -/
def PAGE_SIZE : Nat := 0x1000

/-- `class Process` (process.h lines 84-158).  Machine integers are
modelled as `Nat` (`process_id`, `svc_access_mask`, `handle_table_size`,
`kernel_version`, the heap fields), truncated where the code can overflow.
The set of allocated heap pages and the TLS bitmap are modelled as finite
sets of page/slot indices. -/
structure Process where
  process_id : Nat
  codeset : CodeSet
  /-- 128-bit SVC access mask (`std::bitset<0x80>`, process.h line 101). -/
  svc_access_mask : Nat
  /-- process.h line 103, default `0x200`. -/
  handle_table_size : Nat
  /-- `static_vector<AddressMapping, 8>` (process.h line 106). -/
  address_mappings : List AddressMapping
  flags : ProcessFlags
  kernel_version : Nat
  /-- process.h line 137, both default 0. -/
  heap_start : Nat
  heap_end : Nat
  heap_used : Nat
  linear_heap_used : Nat
  misc_memory_used : Nat
  /-- Pages (addresses divided by `PAGE_SIZE`) currently allocated in the
  heap region. -/
  allocatedPages : Finset Nat
  /-- `std::bitset<300>` of used TLS slots (process.h line 144), as the set
  of set indices. -/
  used_tls_slots : Finset Nat
  deriving DecidableEq

/-- `Process::GetTypeName` (process.h line 88). -/
def Process.GetTypeName (_ : Process) : String := "Process"

/-- `Process::GetName` (process.h line 89): `codeset->name`. -/
def Process.GetName (p : Process) : String := p.codeset.name

/-- `Process::GetHandleType` (process.h lines 91-92). -/
def Process.GetHandleType (_ : Process) : HandleType := HandleType.Process

/-- `Process::Create` (process.h line 86) together with the id assignment
`u32 process_id = next_process_id++` (process.h lines 94 and 112): the
global `u32` counter is threaded explicitly; the returned pair is the new
process and the post-incremented counter, both truncated to 32 bits.  The
remaining fields take the default member initializers of process.h
(`handle_table_size = 0x200`, zeroed mask, empty mappings, zero heap
bounds and usage, empty TLS bitmap). -/
def Process.Create (cs : CodeSet) (next_process_id : Nat) : Process × Nat :=
  ({ process_id := next_process_id % 2 ^ 32
     codeset := cs
     svc_access_mask := 0
     handle_table_size := 0x200
     address_mappings := []
     flags := decodeProcessFlags 0
     kernel_version := 0
     heap_start := 0
     heap_end := 0
     heap_used := 0
     linear_heap_used := 0
     misc_memory_used := 0
     allocatedPages := ∅
     used_tls_slots := ∅ },
   (next_process_id + 1) % 2 ^ 32)

/-- The state of the id counter and the process produced by the `(n+1)`-th
`Create` call in a sequence that starts with counter value `init`. -/
def createN (cs : CodeSet) (init : Nat) : Nat → Process × Nat
  | 0 => Process.Create cs init
  | n + 1 => Process.Create cs (createN cs init n).2

/-- A throwaway code set used to instantiate universally quantified
theorems at concrete inputs. -/
def sampleCodeSet : CodeSet :=
  { name := "app"
    program_id := 0
    code := { offset := 0, addr := 0x00100000, size := 0x1000 }
    rodata := { offset := 0x1000, addr := 0x00101000, size := 0x1000 }
    data := { offset := 0x2000, addr := 0x00102000, size := 0x1000 }
    entrypoint := 0x00100000 }

/-- The set of page indices (addresses divided by `PAGE_SIZE`) covered by
the byte range `[addr, addr + size)` for a page-aligned range. -/
def pageRange (addr size : Nat) : Finset Nat :=
  (Finset.range (size / PAGE_SIZE)).image (fun i => addr / PAGE_SIZE + i)

/-- Modelled from the spec: the allocation search of `HeapAllocate` with
`target = 0` (spec §4.3) — the lowest page-aligned address in
`[heap_start, heap_end)` whose `size`-byte range is in bounds and disjoint
from every currently allocated page. -/
def findFreeRun (p : Process) (size : Nat) : Option Nat :=
  ((List.range ((p.heap_end - p.heap_start) / PAGE_SIZE)).find? (fun i =>
      decide (p.heap_start + i * PAGE_SIZE + size ≤ p.heap_end ∧
        pageRange (p.heap_start + i * PAGE_SIZE) size ∩ p.allocatedPages = ∅))).map
    (fun i => p.heap_start + i * PAGE_SIZE)

/-- Modelled from the spec: `Process::HeapAllocate` (declared at process.h
line 149; its body is not part of the provided sources).  Spec §4.3: a
non-page-aligned or zero size (or target) fails with `InvalidSize`; with
`target = 0` the allocator picks the lowest free run; a nonzero `target`
must lie within the heap bounds and be free, else `InvalidAddress`.  On
success the pages are committed and `heap_used` grows by `size`. -/
def Process.HeapAllocate (p : Process) (target size : Nat) (_ : VMAPermission) :
    Except KError (Nat × Process) :=
  if size = 0 ∨ size % PAGE_SIZE ≠ 0 ∨ target % PAGE_SIZE ≠ 0 then
    .error .InvalidSize
  else if target = 0 then
    match findFreeRun p size with
    | some a => .ok (a, { p with
        allocatedPages := p.allocatedPages ∪ pageRange a size
        heap_used := p.heap_used + size })
    | none => .error .OutOfMemory
  else if p.heap_start ≤ target ∧ target + size ≤ p.heap_end ∧
      pageRange target size ∩ p.allocatedPages = ∅ then
    .ok (target, { p with
      allocatedPages := p.allocatedPages ∪ pageRange target size
      heap_used := p.heap_used + size })
  else
    .error .InvalidAddress

/-- Modelled from the spec: `Process::HeapFree` (declared at process.h line
150; its body is not part of the provided sources).  Spec §4.3: unmaps the
range and decrements `heap_used`; fails with `InvalidAddress` if the range
is not fully allocated. -/
def Process.HeapFree (p : Process) (target size : Nat) : Except KError Process :=
  if pageRange target size ⊆ p.allocatedPages then
    .ok { p with
      allocatedPages := p.allocatedPages \ pageRange target size
      heap_used := p.heap_used - size }
  else
    .error .InvalidAddress

/-- Modelled from the spec: the decoded kernel capability descriptors
(spec §4.2, §9).  `Process::ParseKernelCaps` (declared at process.h line
118) decodes raw `u32` descriptors through a bit-exact tag table that the
spec designates as external ABI reference data (spec §2, §9), so the model
works on the post-decode sum type.  A mapped memory range is two raw
consecutive descriptors (start page, end page); it appears here as one
pre-paired element carrying both pages. -/
inductive CapDesc
  | svcMask (window payload : Nat)
  | kernelVersion (v : Nat)
  | handleTableSize (n : Nat)
  | kernelFlags (raw : Nat)
  | mappedRange (startPage endPage : Nat) (writable : Bool)
  | mappedPage (page : Nat)
  | unknownDesc (raw : Nat)
  deriving DecidableEq, Repr

/-- Whether a descriptor is an SVC-access-mask fragment. -/
def CapDesc.isSvcMask : CapDesc → Bool
  | .svcMask _ _ => true
  | _ => false

/-- Modelled from the spec: the platform maximum that the handle-table-size
payload is clamped to (spec §4.2). -/
def HANDLE_TABLE_MAX : Nat := 0x3FF

/-- The `AddressMapping` produced by a mapped-memory-range descriptor pair,
both pages page-aligned by construction. -/
def rangeMapping (startPage endPage : Nat) (writable : Bool) : AddressMapping :=
  { address := startPage * PAGE_SIZE
    size := (endPage - startPage) * PAGE_SIZE
    writable := writable
    unk_flag := false }

/-- Modelled from the spec: `Process::ParseKernelCaps` (declared at
process.h line 118; its body is not part of the provided sources).  Spec
§4.2: an SVC-mask fragment ORs its 24-bit payload into the window's bits
of the 128-bit mask; kernel version and handle table size overwrite their
fields (the latter clamped); kernel flags map onto the `ProcessFlags`
layout; a mapped range fails with `CapabilityError` when 8 mappings
already exist or the pair is malformed (`end < start`); unknown
descriptors are skipped.  On failure the already-applied prefix stays in
place (spec §4.5: no global rollback) and the partially-updated process is
returned together with the error. -/
def Process.ParseKernelCaps : Process → List CapDesc → Process × Option KError
  | p, [] => (p, none)
  | p, .svcMask w payload :: rest =>
      Process.ParseKernelCaps { p with svc_access_mask :=
        p.svc_access_mask ||| ((payload % 2 ^ 24) <<< (24 * w)) % 2 ^ 128 } rest
  | p, .kernelVersion v :: rest =>
      Process.ParseKernelCaps { p with kernel_version := v % 2 ^ 16 } rest
  | p, .handleTableSize n :: rest =>
      Process.ParseKernelCaps { p with handle_table_size := min n HANDLE_TABLE_MAX } rest
  | p, .kernelFlags raw :: rest =>
      Process.ParseKernelCaps { p with flags := decodeProcessFlags raw } rest
  | p, .mappedRange sp ep w :: rest =>
      if 8 ≤ p.address_mappings.length then (p, some .CapabilityError)
      else if ep < sp then (p, some .CapabilityError)
      else Process.ParseKernelCaps
        { p with address_mappings := p.address_mappings ++ [rangeMapping sp ep w] } rest
  | p, .mappedPage pg :: rest =>
      if 8 ≤ p.address_mappings.length then (p, some .CapabilityError)
      else Process.ParseKernelCaps
        { p with address_mappings := p.address_mappings ++ [rangeMapping pg (pg + 1) true] } rest
  | p, .unknownDesc _ :: rest => Process.ParseKernelCaps p rest

/-- Sequencing of a parse result with a further descriptor list: parsing
continues only when no error has occurred yet. -/
def parseSeq (r : Process × Option KError) (l : List CapDesc) :
    Process × Option KError :=
  match r with
  | (p, none) => Process.ParseKernelCaps p l
  | (p, some e) => (p, some e)

/-- Number of TLS page slots (`std::bitset<300>`, process.h line 144). -/
def TLS_SLOT_COUNT : Nat := 300

/-- Lowest index `i < n` with `used i = false`, if any. -/
def findFreeBelow (used : Nat → Bool) : Nat → Option Nat
  | 0 => none
  | n + 1 =>
    match findFreeBelow used n with
    | some i => some i
    | none => if used n then none else some n

/-- Modelled from the spec: `Allocate` of the TLS slot bitmap (spec §4.4)
over `used_tls_slots`: returns the lowest-numbered unset index and marks
it set; fails with `ResourceExhausted` when all 300 slots are set. -/
def tlsAllocate (s : Finset Nat) : Except KError (Nat × Finset Nat) :=
  match findFreeBelow (fun i => decide (i ∈ s)) TLS_SLOT_COUNT with
  | some i => .ok (i, insert i s)
  | none => .error .ResourceExhausted

/-- Modelled from the spec: `Free` of the TLS slot bitmap (spec §4.4):
clears the slot; fails with `InvalidArgument` if the index is out of range
or already clear. -/
def tlsFree (s : Finset Nat) (i : Nat) : Except KError (Finset Nat) :=
  if i < TLS_SLOT_COUNT ∧ i ∈ s then .ok (s.erase i) else .error .InvalidArgument

/-- `n` consecutive TLS allocations, collecting the returned indices;
fails as soon as one allocation fails. -/
def tlsAllocMany : Nat → Finset Nat → Except KError (List Nat × Finset Nat)
  | 0, s => .ok ([], s)
  | n + 1, s =>
    (tlsAllocate s).bind fun r =>
      (tlsAllocMany n r.2).bind fun q => .ok (r.1 :: q.1, q.2)

/-- The priority ceiling of the platform: process.h line 43 documents
`privileged_priority` as "Can use priority levels higher than 24". -/
def PRIORITY_CEILING : Nat := 24

/-- The observable effect of a successful `Run`: the main-thread creation
trigger (spec §4.5). -/
structure RunTrigger where
  entrypoint : Nat
  priority : Int
  stack_size : Nat
  deriving DecidableEq, Repr

/-- Pages covered by a code-set segment. -/
def segPages (s : Segment) : Finset Nat := pageRange s.addr s.size

/-- Modelled from the spec: `Process::Run` (declared at process.h line 123;
its body is not part of the provided sources).  Spec §4.5: a priority
above the platform ceiling is only accepted when the `privileged_priority`
flag is set, otherwise the call fails with `PermissionDenied`; mapping the
code-set segments fails with `InvalidAddress` when a segment's target
range is already occupied (here: by another segment of the same code set,
the address space being otherwise empty before `Run`); on success the
main-thread trigger fires with the code set's entrypoint. -/
def Process.Run (p : Process) (main_thread_priority : Int) (stack_size : Nat) :
    Except KError RunTrigger :=
  if (PRIORITY_CEILING : Int) < main_thread_priority ∧
      p.flags.privileged_priority = false then
    .error .PermissionDenied
  else if segPages p.codeset.code ∩ segPages p.codeset.rodata ≠ ∅ ∨
      segPages p.codeset.code ∩ segPages p.codeset.data ≠ ∅ ∨
      segPages p.codeset.rodata ∩ segPages p.codeset.data ≠ ∅ then
    .error .InvalidAddress
  else
    .ok { entrypoint := p.codeset.entrypoint
          priority := main_thread_priority
          stack_size := stack_size }

/-- Modelled from the spec: the heap region bounds a freshly created
process is given before its first allocation (spec §8 scenario:
`heap_start = 0x08000000`, `heap_end = 0x10000000`). -/
def HEAP_REGION_START : Nat := 0x08000000

/-- See `HEAP_REGION_START`. -/
def HEAP_REGION_END : Nat := 0x10000000

/-- The process states reachable within one kernel lifetime: created (with
the default zero heap bounds of process.h line 137, or with the heap
region of spec §8 installed at creation) and closed under capability
parsing, heap allocate/free and TLS slot allocate/free. -/
inductive Reachable : Process → Prop
  | create (cs : CodeSet) (c : Nat) : Reachable (Process.Create cs c).1
  | createWithHeap (cs : CodeSet) (c : Nat) :
      Reachable { (Process.Create cs c).1 with
        heap_start := HEAP_REGION_START, heap_end := HEAP_REGION_END }
  | parseCaps {p : Process} (l : List CapDesc) :
      Reachable p → Reachable (Process.ParseKernelCaps p l).1
  | heapAlloc {p : Process} {t s : Nat} {pm : VMAPermission} {a : Nat}
      {p' : Process} : Reachable p → p.HeapAllocate t s pm = .ok (a, p') →
      Reachable p'
  | heapFree {p : Process} {t s : Nat} {p' : Process} :
      Reachable p → p.HeapFree t s = .ok p' → Reachable p'
  | tlsAllocStep {p : Process} {i : Nat} {s' : Finset Nat} :
      Reachable p → tlsAllocate p.used_tls_slots = .ok (i, s') →
      Reachable { p with used_tls_slots := s' }
  | tlsFreeStep {p : Process} {i : Nat} {s' : Finset Nat} :
      Reachable p → tlsFree p.used_tls_slots i = .ok s' →
      Reachable { p with used_tls_slots := s' }

/-- A freshly created process over `sampleCodeSet`, used to instantiate
theorems at concrete inputs. -/
def sampleProcess : Process := (Process.Create sampleCodeSet 0).1

/-- `sampleProcess` with a small heap region installed. -/
def heapTestProcess : Process :=
  { sampleProcess with heap_start := 0x1000, heap_end := 0x3000 }

/-- `sampleProcess` with the `privileged_priority` flag (bit 4) set. -/
def privilegedProcess : Process :=
  { sampleProcess with flags := decodeProcessFlags 0x10 }

/-- The mapped-memory-range descriptor pair with start page, end page and
writability taken from the tuple. -/
def pairDesc (x : Nat × Nat × Bool) : CapDesc :=
  CapDesc.mappedRange x.1 x.2.1 x.2.2

/-- The `AddressMapping` a valid pair produces. -/
def pairMapping (x : Nat × Nat × Bool) : AddressMapping :=
  rangeMapping x.1 x.2.1 x.2.2

/-- The state after allocating one page at `0x1000` in `heapTestProcess`. -/
def heapTestAfter : Process :=
  { heapTestProcess with allocatedPages := {1}, heap_used := 0x1000 }

/-- Nine valid mapped-memory-range descriptor pairs. -/
def ninePairs : List (Nat × Nat × Bool) :=
  [(0, 1, true), (1, 2, true), (2, 3, true), (3, 4, true), (4, 5, true),
   (5, 6, true), (6, 7, true), (7, 8, true), (8, 9, true)]

lemma createN_counter (cs : CodeSet) (init : Nat) :
    ∀ n, (createN cs init n).2 = (init + n + 1) % 2 ^ 32 := by
  intro n
  induction n with
  | zero => simp [createN, Process.Create]
  | succ n ih =>
      show (Process.Create cs (createN cs init n).2).2 = _
      rw [Process.Create, ih]
      simp [Nat.add_mod_left, Nat.mod_add_mod]
      omega

lemma createN_pid (cs : CodeSet) (init : Nat) :
    ∀ n, (createN cs init n).1.process_id = (init + n) % 2 ^ 32 := by
  intro n
  cases n with
  | zero => simp [createN, Process.Create]
  | succ n =>
      show (Process.Create cs (createN cs init n).2).1.process_id = _
      rw [Process.Create, createN_counter]
      simp only []
      show ((init + n + 1) % 2 ^ 32) % 2 ^ 32 = _
      omega

lemma pageRange_mono (a : Nat) {s' s : Nat} (h : s' ≤ s) :
    pageRange a s' ⊆ pageRange a s :=
  Finset.image_subset_image (Finset.range_subset.mpr (Nat.div_le_div_right h))

lemma union_sdiff_cancel {A B : Finset Nat} (h : A ∩ B = ∅) : (A ∪ B) \ B = A := by
  have hd : ∀ x, x ∈ A → x ∉ B := fun x hA hB =>
    Finset.eq_empty_iff_forall_not_mem.mp h x (Finset.mem_inter.mpr ⟨hA, hB⟩)
  ext x
  simp only [Finset.mem_sdiff, Finset.mem_union]
  constructor
  · rintro ⟨hAB, hnB⟩
    rcases hAB with hA | hB
    · exact hA
    · exact absurd hB hnB
  · intro hA
    exact ⟨Or.inl hA, hd x hA⟩

lemma inter_empty_of_subset {A' A B : Finset Nat} (hsub : A' ⊆ A)
    (h : A ∩ B = ∅) : A' ∩ B = ∅ :=
  Finset.subset_empty.mp (h ▸ Finset.inter_subset_inter hsub (Finset.Subset.refl B))

/-- What a successful `HeapAllocate` guarantees: a nonzero page-aligned
size, a range inside `[heap_start, heap_end)` that is disjoint from the
currently allocated pages, the committed successor state, and (when
`heap_start` is page-aligned) a page-aligned result. -/
lemma heapAllocate_ok_elim {p : Process} {t s : Nat} {pm : VMAPermission}
    {a : Nat} {p' : Process} (h : p.HeapAllocate t s pm = .ok (a, p')) :
    s ≠ 0 ∧ s % PAGE_SIZE = 0 ∧ p.heap_start ≤ a ∧ a + s ≤ p.heap_end ∧
      pageRange a s ∩ p.allocatedPages = ∅ ∧
      p' = { p with allocatedPages := p.allocatedPages ∪ pageRange a s,
                    heap_used := p.heap_used + s } ∧
      (p.heap_start % PAGE_SIZE = 0 → a % PAGE_SIZE = 0) := by
  rw [Process.HeapAllocate] at h
  split at h
  · exact absurd h (by simp)
  next hc1 =>
    push_neg at hc1
    obtain ⟨hs0, hsal, htal⟩ := hc1
    split at h
    next ht0 =>
      cases hf : findFreeRun p s with
      | none => rw [hf] at h; exact absurd h (by simp)
      | some a' =>
          rw [hf] at h
          rw [findFreeRun] at hf
          obtain ⟨i, hfind, hai⟩ := Option.map_eq_some'.mp hf
          have hpred := List.find?_some hfind
          simp only [decide_eq_true_eq] at hpred
          obtain ⟨hle, hint⟩ := hpred
          simp only [Except.ok.injEq, Prod.mk.injEq] at h
          obtain ⟨ha, hp'⟩ := h
          subst ha
          subst hp'
          subst hai
          refine ⟨hs0, hsal, Nat.le_add_right _ _, hle, hint, rfl, ?_⟩
          intro hst
          simpa [Nat.add_mul_mod_self_right] using hst
    next ht0 =>
      split at h
      next hcond =>
        simp only [Except.ok.injEq, Prod.mk.injEq] at h
        obtain ⟨hta, hp'⟩ := h
        subst hta
        subst hp'
        exact ⟨hs0, hsal, hcond.1, hcond.2.1, hcond.2.2, rfl, fun _ => htal⟩
      · exact absurd h (by simp)

lemma heapFree_after_alloc {p : Process} {t s : Nat} {pm : VMAPermission}
    {a : Nat} {p₁ : Process} (h : p.HeapAllocate t s pm = .ok (a, p₁)) :
    p₁.HeapFree a s = .ok { p₁ with
      allocatedPages := p.allocatedPages
      heap_used := p.heap_used } := by
  obtain ⟨hs0, hsal, hsa, hae, hdisj, hp₁, hal⟩ := heapAllocate_ok_elim h
  subst hp₁
  rw [Process.HeapFree, if_pos (by simp [Finset.subset_union_right])]
  simp only [Except.ok.injEq]
  congr 1
  · exact Nat.add_sub_cancel _ _
  · exact union_sdiff_cancel (by rw [Finset.inter_comm]; exact hdisj)

lemma heapAllocate_target_ok {p : Process} {a s' : Nat} (pm : VMAPermission)
    (h1 : s' ≠ 0) (h2 : s' % PAGE_SIZE = 0) (h3 : a % PAGE_SIZE = 0)
    (h4 : a ≠ 0) (h5 : p.heap_start ≤ a) (h6 : a + s' ≤ p.heap_end)
    (h7 : pageRange a s' ∩ p.allocatedPages = ∅) :
    p.HeapAllocate a s' pm = .ok (a, { p with
      allocatedPages := p.allocatedPages ∪ pageRange a s'
      heap_used := p.heap_used + s' }) := by
  rw [Process.HeapAllocate, if_neg (by push_neg; exact ⟨h1, h2, h3⟩),
    if_neg h4, if_pos ⟨h5, h6, h7⟩]

lemma heapFree_ok_elim {p : Process} {t s : Nat} {p' : Process}
    (h : p.HeapFree t s = .ok p') :
    pageRange t s ⊆ p.allocatedPages ∧
      p' = { p with allocatedPages := p.allocatedPages \ pageRange t s,
                    heap_used := p.heap_used - s } := by
  rw [Process.HeapFree] at h
  split at h
  next hc =>
    simp only [Except.ok.injEq] at h
    exact ⟨hc, h.symm⟩
  · exact absurd h (by simp)

lemma parse_svc_mask_eq : ∀ (l : List CapDesc) (p : Process),
    (∀ d ∈ l, d.isSvcMask = false) →
    (Process.ParseKernelCaps p l).1.svc_access_mask = p.svc_access_mask := by
  intro l
  induction l with
  | nil => intro p _; rfl
  | cons d rest ih =>
      intro p h
      have hd := h d (List.mem_cons_self d rest)
      have ht : ∀ d ∈ rest, d.isSvcMask = false :=
        fun d hm => h d (List.mem_cons_of_mem _ hm)
      cases d with
      | svcMask w pl => simp [CapDesc.isSvcMask] at hd
      | kernelVersion v =>
          simp only [Process.ParseKernelCaps]; exact ih _ ht
      | handleTableSize n =>
          simp only [Process.ParseKernelCaps]; exact ih _ ht
      | kernelFlags raw =>
          simp only [Process.ParseKernelCaps]; exact ih _ ht
      | mappedRange sp ep w =>
          simp only [Process.ParseKernelCaps]
          split
          · rfl
          split
          · rfl
          · exact ih _ ht
      | mappedPage pg =>
          simp only [Process.ParseKernelCaps]
          split
          · rfl
          · exact ih _ ht
      | unknownDesc raw =>
          simp only [Process.ParseKernelCaps]; exact ih _ ht

lemma parse_append : ∀ (l₁ l₂ : List CapDesc) (p : Process),
    Process.ParseKernelCaps p (l₁ ++ l₂) =
      parseSeq (Process.ParseKernelCaps p l₁) l₂ := by
  intro l₁
  induction l₁ with
  | nil => intro l₂ p; rfl
  | cons d rest ih =>
      intro l₂ p
      cases d with
      | svcMask w pl =>
          simp only [List.cons_append, Process.ParseKernelCaps]; exact ih _ _
      | kernelVersion v =>
          simp only [List.cons_append, Process.ParseKernelCaps]; exact ih _ _
      | handleTableSize n =>
          simp only [List.cons_append, Process.ParseKernelCaps]; exact ih _ _
      | kernelFlags raw =>
          simp only [List.cons_append, Process.ParseKernelCaps]; exact ih _ _
      | mappedRange sp ep w =>
          simp only [List.cons_append, Process.ParseKernelCaps]
          split
          · rfl
          split
          · rfl
          · exact ih _ _
      | mappedPage pg =>
          simp only [List.cons_append, Process.ParseKernelCaps]
          split
          · rfl
          · exact ih _ _
      | unknownDesc raw =>
          simp only [List.cons_append, Process.ParseKernelCaps]; exact ih _ _

lemma parse_mappings_le : ∀ (l : List CapDesc) (p : Process),
    p.address_mappings.length ≤ 8 →
    (Process.ParseKernelCaps p l).1.address_mappings.length ≤ 8 := by
  intro l
  induction l with
  | nil => intro p h; exact h
  | cons d rest ih =>
      intro p h
      cases d with
      | svcMask w pl => simp only [Process.ParseKernelCaps]; exact ih _ h
      | kernelVersion v => simp only [Process.ParseKernelCaps]; exact ih _ h
      | handleTableSize n => simp only [Process.ParseKernelCaps]; exact ih _ h
      | kernelFlags raw => simp only [Process.ParseKernelCaps]; exact ih _ h
      | mappedRange sp ep w =>
          simp only [Process.ParseKernelCaps]
          split
          next hc => exact h
          split
          · exact h
          · refine ih _ ?_
            simp only [List.length_append, List.length_singleton]
            omega
      | mappedPage pg =>
          simp only [Process.ParseKernelCaps]
          split
          next hc => exact h
          · refine ih _ ?_
            simp only [List.length_append, List.length_singleton]
            omega
      | unknownDesc raw => simp only [Process.ParseKernelCaps]; exact ih _ h

/-- Capability parsing never touches the heap fields or the TLS bitmap. -/
lemma parse_heap_eq : ∀ (l : List CapDesc) (p : Process),
    (Process.ParseKernelCaps p l).1.heap_start = p.heap_start ∧
      (Process.ParseKernelCaps p l).1.heap_end = p.heap_end := by
  intro l
  induction l with
  | nil => intro p; exact ⟨rfl, rfl⟩
  | cons d rest ih =>
      intro p
      cases d with
      | svcMask w pl => simp only [Process.ParseKernelCaps]; exact ih _
      | kernelVersion v => simp only [Process.ParseKernelCaps]; exact ih _
      | handleTableSize n => simp only [Process.ParseKernelCaps]; exact ih _
      | kernelFlags raw => simp only [Process.ParseKernelCaps]; exact ih _
      | mappedRange sp ep w =>
          simp only [Process.ParseKernelCaps]
          split
          · exact ⟨rfl, rfl⟩
          split
          · exact ⟨rfl, rfl⟩
          · exact ih _
      | mappedPage pg =>
          simp only [Process.ParseKernelCaps]
          split
          · exact ⟨rfl, rfl⟩
          · exact ih _
      | unknownDesc raw => simp only [Process.ParseKernelCaps]; exact ih _

/-- Parsing a block of valid mapped-range pairs that fits under the
8-entry cap appends exactly their mappings and continues with the rest. -/
lemma parse_ranges_ok : ∀ (pairs : List (Nat × Nat × Bool)) (p : Process)
    (rest : List CapDesc), (∀ x ∈ pairs, x.1 ≤ x.2.1) →
    p.address_mappings.length + pairs.length ≤ 8 →
    Process.ParseKernelCaps p (pairs.map pairDesc ++ rest) =
      Process.ParseKernelCaps
        { p with address_mappings := p.address_mappings ++ pairs.map pairMapping }
        rest := by
  intro pairs
  induction pairs with
  | nil => intro p rest _ _; simp
  | cons x pairs ih =>
      intro p rest hv hlen
      have hx := hv x (List.mem_cons_self x pairs)
      have hv' : ∀ y ∈ pairs, y.1 ≤ y.2.1 :=
        fun y hm => hv y (List.mem_cons_of_mem _ hm)
      simp only [List.map_cons, List.cons_append, pairDesc,
        Process.ParseKernelCaps]
      rw [if_neg (by simp only [List.length_cons] at hlen; omega),
        if_neg (by omega)]
      refine Eq.trans
        (ih _ rest hv' (by simp only [List.length_cons] at hlen; simp; omega)) ?_
      congr 1
      simp [pairMapping, List.append_assoc]

lemma findFreeBelow_of_all (u : Nat → Bool) :
    ∀ n, (∀ i, i < n → u i = true) → findFreeBelow u n = none := by
  intro n
  induction n with
  | zero => intro _; rfl
  | succ n ih =>
      intro h
      rw [findFreeBelow, ih (fun i hi => h i (Nat.lt_succ_of_lt hi))]
      simp [h n (Nat.lt_succ_self n)]

lemma findFreeBelow_some (u : Nat → Bool) :
    ∀ n j, j < n → (∀ i, i < j → u i = true) → u j = false →
    findFreeBelow u n = some j := by
  intro n
  induction n with
  | zero => intro j hj; omega
  | succ n ih =>
      intro j hj hlow hfree
      rw [findFreeBelow]
      rcases Nat.lt_succ_iff_lt_or_eq.mp hj with hj' | heq
      · rw [ih j hj' hlow hfree]
      · subst heq
        rw [findFreeBelow_of_all u j hlow]
        simp [hfree]

lemma tlsAllocate_range {k : Nat} (hk : k < 300) :
    tlsAllocate (Finset.range k) = .ok (k, Finset.range (k + 1)) := by
  have h : findFreeBelow (fun i => decide (i ∈ Finset.range k)) TLS_SLOT_COUNT
      = some k :=
    findFreeBelow_some _ TLS_SLOT_COUNT k hk
      (fun i hi => by simp only [decide_eq_true_eq, Finset.mem_range]; omega)
      (by simp)
  unfold tlsAllocate
  rw [Finset.range_succ, h]

lemma tlsAllocMany_range : ∀ (m k : Nat), k + m ≤ 300 →
    tlsAllocMany m (Finset.range k)
      = .ok (List.range' k m, Finset.range (k + m)) := by
  intro m
  induction m with
  | zero => intro k _; simp [tlsAllocMany]
  | succ m ih =>
      intro k hkm
      rw [tlsAllocMany, tlsAllocate_range (show k < 300 by omega)]
      show ((tlsAllocMany m (Finset.range (k + 1))).bind
        fun q => Except.ok (k :: q.1, q.2)) = _
      rw [ih (k + 1) (by omega)]
      show Except.ok (k :: List.range' (k + 1) m, Finset.range (k + 1 + m)) = _
      have he : k + 1 + m = k + (m + 1) := by omega
      rw [he]
      rfl

lemma tlsAllocate_full :
    tlsAllocate (Finset.range 300) = .error .ResourceExhausted := by
  have h : findFreeBelow (fun i => decide (i ∈ Finset.range 300)) TLS_SLOT_COUNT
      = none :=
    findFreeBelow_of_all _ TLS_SLOT_COUNT
      (fun i hi => by simp only [decide_eq_true_eq, Finset.mem_range]; exact hi)
  unfold tlsAllocate
  rw [h]

lemma tlsAllocate_erase {j : Nat} (hj : j < 300) :
    tlsAllocate ((Finset.range 300).erase j) = .ok (j, Finset.range 300) := by
  have h : findFreeBelow (fun i => decide (i ∈ (Finset.range 300).erase j))
      TLS_SLOT_COUNT = some j :=
    findFreeBelow_some _ TLS_SLOT_COUNT j hj
      (fun i hi => by
        simp only [decide_eq_true_eq, Finset.mem_erase, Finset.mem_range]
        omega)
      (by simp)
  unfold tlsAllocate
  rw [h]
  show Except.ok (j, insert j ((Finset.range 300).erase j)) = _
  rw [Finset.insert_erase (by simp only [Finset.mem_range]; exact hj)]

/-- The heap bounds of any reachable process state satisfy
`heap_start ≤ heap_end`. -/
lemma reachable_heap_bounds {p : Process} (h : Reachable p) :
    p.heap_start ≤ p.heap_end := by
  induction h with
  | create cs c => exact Nat.le_refl 0
  | createWithHeap cs c =>
      show HEAP_REGION_START ≤ HEAP_REGION_END
      norm_num [HEAP_REGION_START, HEAP_REGION_END]
  | parseCaps l hr ih =>
      rw [(parse_heap_eq l _).1, (parse_heap_eq l _).2]
      exact ih
  | heapAlloc hr heq ih =>
      obtain ⟨_, _, _, _, _, hp', _⟩ := heapAllocate_ok_elim heq
      subst hp'
      exact ih
  | heapFree hr heq ih =>
      obtain ⟨_, hp'⟩ := heapFree_ok_elim heq
      subst hp'
      exact ih
  | tlsAllocStep hr heq ih => exact ih
  | tlsFreeStep hr heq ih => exact ih

/-- Every reachable process state has at most 8 address mappings. -/
lemma reachable_mappings_le {p : Process} (h : Reachable p) :
    p.address_mappings.length ≤ 8 := by
  induction h with
  | create cs c => show (List.length []) ≤ 8; simp
  | createWithHeap cs c => show (List.length []) ≤ 8; simp
  | parseCaps l hr ih => exact parse_mappings_le l _ ih
  | heapAlloc hr heq ih =>
      obtain ⟨_, _, _, _, _, hp', _⟩ := heapAllocate_ok_elim heq
      subst hp'
      exact ih
  | heapFree hr heq ih =>
      obtain ⟨_, hp'⟩ := heapFree_ok_elim heq
      subst hp'
      exact ih
  | tlsAllocStep hr heq ih => exact ih
  | tlsFreeStep hr heq ih => exact ih

/-- C1 (counterexample): `process_id` values are *not* pairwise distinct
over arbitrary `Create` sequences — the 32-bit counter wraps, so the 1st
and the `2^32+1`-th process of one kernel lifetime receive the same id. -/
theorem claim_C1_counterexample :
    (createN sampleCodeSet 0 (2 ^ 32)).1.process_id
      = (createN sampleCodeSet 0 0).1.process_id := by
  rw [createN_pid, createN_pid]
  simp

/-- C1 (amended): as long as the total number of `Create` calls does not
wrap the 32-bit counter (`init + n < 2^32`), the assigned `process_id`
values are strictly increasing in call order, hence pairwise distinct and
never reused. -/
theorem claim_C1_amended (cs : CodeSet) (init m n : Nat)
    (hwrap : init + n < 2 ^ 32) (hmn : m < n) :
    (createN cs init m).1.process_id < (createN cs init n).1.process_id := by
  rw [createN_pid, createN_pid,
    Nat.mod_eq_of_lt (by omega), Nat.mod_eq_of_lt hwrap]
  omega

/-- Witness for C1 (amended) at `init = 0`, calls 1 and 2. -/
theorem claim_C1_witness :
    (createN sampleCodeSet 0 1).1.process_id
      < (createN sampleCodeSet 0 2).1.process_id :=
  claim_C1_amended sampleCodeSet 0 1 2 (by norm_num) (by norm_num)

/-- C9: ids are assigned by post-incrementing a 32-bit counter, so the
`(n+1)`-th created process gets `(init + n) % 2^32`, and ids repeat after
`2^32` creations. -/
theorem claim_C9 (cs : CodeSet) (init n : Nat) :
    (createN cs init n).1.process_id = (init + n) % 2 ^ 32 ∧
      (createN cs init (n + 2 ^ 32)).1.process_id
        = (createN cs init n).1.process_id := by
  refine ⟨createN_pid cs init n, ?_⟩
  rw [createN_pid, createN_pid, ← Nat.add_assoc, Nat.add_mod_right]

/-- C8: immediately after `Process::Create` and before `ParseKernelCaps`,
`handle_table_size` is 512 and every bit of `svc_access_mask` is clear. -/
theorem claim_C8 (cs : CodeSet) (c : Nat) :
    (Process.Create cs c).1.handle_table_size = 512 ∧
      ∀ i, ((Process.Create cs c).1.svc_access_mask).testBit i = false :=
  ⟨rfl, fun i => Nat.zero_testBit i⟩

/-- C10: `Process::GetName` returns the code set's name, `GetTypeName`
returns "Process", `GetHandleType` returns `HandleType::Process`; a
`CodeSet`'s `GetHandleType` returns `HandleType::CodeSet` and its
`GetName` its own name field. -/
theorem claim_C10 (p : Process) (cs : CodeSet) :
    p.GetName = p.codeset.name ∧ p.GetTypeName = "Process" ∧
      p.GetHandleType = HandleType.Process ∧
      cs.GetHandleType = HandleType.CodeSet ∧ cs.GetName = cs.name :=
  ⟨rfl, rfl, rfl, rfl, rfl⟩

/-- C2: every successful `HeapAllocate` returns a range of length `size`
inside `[heap_start, heap_end)` that overlaps no currently allocated
range, and `heap_start ≤ heap_end` holds in every reachable state. -/
theorem claim_C2 :
    (∀ (p : Process) (t s : Nat) (pm : VMAPermission) (a : Nat)
        (p' : Process), p.HeapAllocate t s pm = .ok (a, p') →
        p.heap_start ≤ a ∧ a + s ≤ p.heap_end ∧
          pageRange a s ∩ p.allocatedPages = ∅) ∧
      ∀ p : Process, Reachable p → p.heap_start ≤ p.heap_end := by
  constructor
  · intro p t s pm a p' h
    obtain ⟨_, _, h3, h4, h5, _, _⟩ := heapAllocate_ok_elim h
    exact ⟨h3, h4, h5⟩
  · exact fun p h => reachable_heap_bounds h

/-- Witness for C2: a concrete successful allocation in `heapTestProcess`
and a concrete reachable state with the spec §8 heap region. -/
theorem claim_C2_witness :
    (heapTestProcess.heap_start ≤ 0x1000 ∧
        0x1000 + 0x1000 ≤ heapTestProcess.heap_end ∧
        pageRange 0x1000 0x1000 ∩ heapTestProcess.allocatedPages = ∅) ∧
      ({ (Process.Create sampleCodeSet 0).1 with
          heap_start := HEAP_REGION_START,
          heap_end := HEAP_REGION_END } : Process).heap_start ≤
        ({ (Process.Create sampleCodeSet 0).1 with
          heap_start := HEAP_REGION_START,
          heap_end := HEAP_REGION_END } : Process).heap_end :=
  ⟨claim_C2.1 heapTestProcess 0 0x1000 VMAPermission.ReadWrite 0x1000
      heapTestAfter (by decide),
   claim_C2.2 _ (Reachable.createWithHeap sampleCodeSet 0)⟩

/-- C3: after a successful `HeapAllocate`, a `HeapFree` of the identical
range succeeds, restores `heap_used` and the allocated-page set to their
pre-allocation values, and a subsequent `HeapAllocate` targeted at the
freed address with the same or any smaller (page-aligned, nonzero) size
succeeds and returns that address again. -/
theorem claim_C3 (p : Process) (t s : Nat) (pm : VMAPermission) (a : Nat)
    (p₁ : Process) (hal : p.heap_start % PAGE_SIZE = 0)
    (hpos : 0 < p.heap_start) (h : p.HeapAllocate t s pm = .ok (a, p₁)) :
    p₁.HeapFree a s
        = .ok { p₁ with
            allocatedPages := p.allocatedPages
            heap_used := p.heap_used } ∧
      ∀ (s' : Nat) (pm' : VMAPermission), s' ≠ 0 → s' % PAGE_SIZE = 0 →
        s' ≤ s →
        ({ p₁ with
            allocatedPages := p.allocatedPages
            heap_used := p.heap_used } : Process).HeapAllocate a s' pm'
          = .ok (a, { p₁ with
              allocatedPages := p.allocatedPages ∪ pageRange a s'
              heap_used := p.heap_used + s' }) := by
  obtain ⟨hs0, hsal, hsa, hae, hdisj, hp₁, halI⟩ := heapAllocate_ok_elim h
  have ha : a % PAGE_SIZE = 0 := halI hal
  refine ⟨heapFree_after_alloc h, ?_⟩
  intro s' pm' h1 h2 h3
  subst hp₁
  refine heapAllocate_target_ok pm' h1 h2 ha (by omega) ?_ ?_ ?_
  · show p.heap_start ≤ a
    exact hsa
  · show a + s' ≤ p.heap_end
    omega
  · show pageRange a s' ∩ p.allocatedPages = ∅
    exact inter_empty_of_subset (pageRange_mono a h3) hdisj

/-- Witness for C3: free after the concrete allocation of
`claim_C2_witness`. -/
theorem claim_C3_witness :
    heapTestAfter.HeapFree 0x1000 0x1000
      = .ok { heapTestAfter with
          allocatedPages := heapTestProcess.allocatedPages
          heap_used := heapTestProcess.heap_used } :=
  (claim_C3 heapTestProcess 0 0x1000 VMAPermission.ReadWrite 0x1000
    heapTestAfter (by decide) (by decide) (by decide)).1

/-- C6: from an empty TLS bitmap, 300 consecutive allocations succeed and
return slots 0..299 in order; the 301st fails with `ResourceExhausted`;
after freeing any one slot `j`, the next allocation succeeds and returns
`j` (and refills the bitmap, so exactly one allocation succeeds). -/
theorem claim_C6 :
    tlsAllocMany 300 (∅ : Finset Nat)
        = .ok (List.range' 0 300, Finset.range 300) ∧
      tlsAllocate (Finset.range 300) = .error KError.ResourceExhausted ∧
      ∀ j, j < 300 →
        tlsFree (Finset.range 300) j = .ok ((Finset.range 300).erase j) ∧
        tlsAllocate ((Finset.range 300).erase j)
          = .ok (j, Finset.range 300) := by
  refine ⟨?_, tlsAllocate_full, ?_⟩
  · have h := tlsAllocMany_range 300 0 (by norm_num)
    simpa using h
  · intro j hj
    refine ⟨?_, tlsAllocate_erase hj⟩
    rw [tlsFree, if_pos ⟨(show j < TLS_SLOT_COUNT from hj),
      Finset.mem_range.mpr hj⟩]

/-- Witness for C6 at slot 42. -/
theorem claim_C6_witness :
    tlsFree (Finset.range 300) 42 = .ok ((Finset.range 300).erase 42) ∧
      tlsAllocate ((Finset.range 300).erase 42)
        = .ok (42, Finset.range 300) :=
  claim_C6.2.2 42 (by norm_num)

/-- C7: a `Run` with main-thread priority above the platform ceiling fails
with `PermissionDenied` (as a discriminated error result) when the
process's `privileged_priority` flag is clear, and is never rejected with
`PermissionDenied` when the flag is set. -/
theorem claim_C7 (p : Process) (prio : Int) (stack : Nat)
    (h : (PRIORITY_CEILING : Int) < prio) :
    (p.flags.privileged_priority = false →
      p.Run prio stack = .error KError.PermissionDenied) ∧
    (p.flags.privileged_priority = true →
      p.Run prio stack ≠ .error KError.PermissionDenied) := by
  constructor
  · intro hf
    rw [Process.Run, if_pos ⟨h, hf⟩]
  · intro hf
    rw [Process.Run, if_neg (by simp [hf])]
    split
    · simp
    · simp

/-- Witness for C7 at priority 30: rejected without the flag, accepted by
the priority gate with it. -/
theorem claim_C7_witness :
    sampleProcess.Run 30 0x4000 = .error KError.PermissionDenied ∧
      privilegedProcess.Run 30 0x4000 ≠ .error KError.PermissionDenied :=
  ⟨(claim_C7 sampleProcess 30 0x4000 (by decide)).1 (by decide),
   (claim_C7 privilegedProcess 30 0x4000 (by decide)).2 (by decide)⟩

/-- C4: on a process whose SVC mask is all zeros, a successfully parsed
descriptor sequence containing exactly one SVC-access-mask descriptor for
window `w` sets exactly the payload's bits inside that 24-bit window of
the 128-bit mask and leaves every other bit of the mask clear. -/
theorem claim_C4 (p : Process) (l₁ l₂ : List CapDesc) (w payload : Nat)
    (hmask : p.svc_access_mask = 0) (hpl : payload < 2 ^ 24)
    (h₁ : ∀ d ∈ l₁, d.isSvcMask = false) (h₂ : ∀ d ∈ l₂, d.isSvcMask = false)
    (hok : (Process.ParseKernelCaps p
        (l₁ ++ CapDesc.svcMask w payload :: l₂)).2 = none) :
    (∀ i, 24 * w ≤ i → i < 24 * w + 24 → i < 128 →
        (Process.ParseKernelCaps p
            (l₁ ++ CapDesc.svcMask w payload :: l₂)).1.svc_access_mask.testBit i
          = payload.testBit (i - 24 * w)) ∧
      ∀ i, i < 24 * w ∨ 24 * w + 24 ≤ i ∨ 128 ≤ i →
        (Process.ParseKernelCaps p
            (l₁ ++ CapDesc.svcMask w payload :: l₂)).1.svc_access_mask.testBit i
          = false := by
  rcases hr : Process.ParseKernelCaps p l₁ with ⟨q, e⟩
  have happ := parse_append l₁ (CapDesc.svcMask w payload :: l₂) p
  rw [hr] at happ
  cases e with
  | some err =>
      rw [happ] at hok
      simp [parseSeq] at hok
  | none =>
      have hq : q.svc_access_mask = 0 := by
        have hl := parse_svc_mask_eq l₁ p h₁
        rw [hr] at hl
        simpa [hmask] using hl
      have hm : (Process.ParseKernelCaps p
          (l₁ ++ CapDesc.svcMask w payload :: l₂)).1.svc_access_mask
            = (payload <<< (24 * w)) % 2 ^ 128 := by
        rw [happ]
        show (Process.ParseKernelCaps q
          (CapDesc.svcMask w payload :: l₂)).1.svc_access_mask = _
        simp only [Process.ParseKernelCaps]
        rw [parse_svc_mask_eq l₂ _ h₂]
        show q.svc_access_mask ||| ((payload % 2 ^ 24) <<< (24 * w)) % 2 ^ 128 = _
        rw [hq, Nat.mod_eq_of_lt hpl, Nat.zero_or]
      constructor
      · intro i hge hlt h128
        rw [hm, Nat.testBit_mod_two_pow, Nat.testBit_shiftLeft]
        simp [h128, hge]
      · intro i hcase
        rw [hm, Nat.testBit_mod_two_pow, Nat.testBit_shiftLeft]
        rcases hcase with hc | hc | hc
        · have hn : ¬(i ≥ 24 * w) := by omega
          simp [hn]
        · have hbit : payload.testBit (i - 24 * w) = false :=
            Nat.testBit_lt_two_pow (lt_of_lt_of_le hpl
              (Nat.pow_le_pow_right (by norm_num) (by omega)))
          simp [hbit]
        · have hn : ¬(i < 128) := by omega
          simp [hn]

/-- Witness for C4: parsing `[kernelVersion 2, svcMask 1 3, unknown 5]` on
a fresh process sets bits 24 and 25 and no others; checked at bits 25 and
3. -/
theorem claim_C4_witness :
    (Process.ParseKernelCaps sampleProcess
        [CapDesc.kernelVersion 2, CapDesc.svcMask 1 3,
          CapDesc.unknownDesc 5]).1.svc_access_mask.testBit 25
        = Nat.testBit 3 (25 - 24) ∧
      (Process.ParseKernelCaps sampleProcess
        [CapDesc.kernelVersion 2, CapDesc.svcMask 1 3,
          CapDesc.unknownDesc 5]).1.svc_access_mask.testBit 3 = false := by
  have h := claim_C4 sampleProcess [CapDesc.kernelVersion 2]
    [CapDesc.unknownDesc 5] 1 3 (by decide) (by norm_num) (by decide)
    (by decide) (by decide)
  exact ⟨h.1 25 (by norm_num) (by norm_num) (by norm_num),
    h.2 3 (Or.inl (by norm_num))⟩

/-- C5: parsing nine valid mapped-memory-range descriptor pairs on a
process with no mappings fails with `CapabilityError` on the ninth pair,
leaving exactly the eight mappings of the first eight pairs; and every
reachable process state has at most 8 address mappings. -/
theorem claim_C5 :
    (∀ (pairs : List (Nat × Nat × Bool)) (p : Process),
        pairs.length = 9 → (∀ x ∈ pairs, x.1 ≤ x.2.1) →
        p.address_mappings = [] →
        (Process.ParseKernelCaps p (pairs.map pairDesc)).2
            = some KError.CapabilityError ∧
          (Process.ParseKernelCaps p (pairs.map pairDesc)).1.address_mappings
            = (pairs.take 8).map pairMapping ∧
          (Process.ParseKernelCaps p
              (pairs.map pairDesc)).1.address_mappings.length = 8) ∧
      ∀ p : Process, Reachable p → p.address_mappings.length ≤ 8 := by
  constructor
  · intro pairs p hlen hv hmap
    obtain ⟨x, hx⟩ : ∃ x, pairs.drop 8 = [x] := by
      apply List.length_eq_one.mp
      rw [List.length_drop, hlen]
    have hv8 : ∀ y ∈ pairs.take 8, y.1 ≤ y.2.1 :=
      fun y hm => hv y (List.take_subset 8 pairs hm)
    have hlen8 : (pairs.take 8).length = 8 := by
      rw [List.length_take, hlen]
      norm_num
    have hmapsplit : pairs.map pairDesc
        = (pairs.take 8).map pairDesc ++ (pairs.drop 8).map pairDesc := by
      rw [← List.map_append, List.take_append_drop]
    have hparse := parse_ranges_ok (pairs.take 8) p ((pairs.drop 8).map pairDesc)
      hv8 (by rw [hmap, hlen8]; simp)
    rw [hmapsplit, hparse, hx, hmap]
    simp only [List.nil_append, List.map_cons, List.map_nil, pairDesc,
      Process.ParseKernelCaps]
    rw [if_pos (by rw [List.length_map, hlen8])]
    refine ⟨rfl, rfl, ?_⟩
    rw [List.length_map, hlen8]
  · exact fun p h => reachable_mappings_le h

/-- Witness for C5: the nine concrete pairs of `ninePairs` on a fresh
process. -/
theorem claim_C5_witness :
    (Process.ParseKernelCaps sampleProcess (ninePairs.map pairDesc)).2
        = some KError.CapabilityError ∧
      (Process.ParseKernelCaps sampleProcess
          (ninePairs.map pairDesc)).1.address_mappings.length = 8 :=
  ⟨(claim_C5.1 ninePairs sampleProcess (by decide) (by decide) rfl).1,
   (claim_C5.1 ninePairs sampleProcess (by decide) (by decide) rfl).2.2⟩

end Citra
